import Mathlib

/-!
Verification of the coordinate-registration and playback core of the
f1demonstration repository.

The embedded code comes from two source files:
* `scripts/compute_transform.js` — Web Mercator projection, the
  nearest-point-on-polyline oracle, the closed-form similarity solver and the
  iterative registration loop (`compute`).
* `frontend/react-app/src/components/TrackMap.tsx` — the playback engine:
  binary-search segment lookup (`findSegmentIndex`), time interpolation and
  the seek handler of the range slider.

Exact real/rational arithmetic stands in for JavaScript doubles: transcendental
parts (projection, the solver's `atan2`/`hypot`) are embedded over `ℝ`,
purely rational parts (polyline distances, segment lookup, interpolation,
playback state) over `ℚ` so that concrete instances evaluate.
-/

namespace F1

/-- A planar point `{x, y}` as used throughout `compute_transform.js`. -/
structure Pt (K : Type) where
  x : K
  y : K
deriving DecidableEq, Repr

/-! ## Projection utility (`compute_transform.js`, lines 4–17) -/

/-- Earth radius used by both `project` and `unproject`: `R = 6378137.0`. -/
def mercR : ℝ := 6378137

/-- `project(lon, lat)`: Web Mercator forward projection (EPSG:3857).
`x = R * (lon * Math.PI / 180)`,
`y = R * Math.log(Math.tan(Math.PI / 4 + (lat * Math.PI / 180) / 2))`. -/
noncomputable def project (lon lat : ℝ) : Pt ℝ :=
  ⟨mercR * (lon * Real.pi / 180),
   mercR * Real.log (Real.tan (Real.pi / 4 + (lat * Real.pi / 180) / 2))⟩

/-- `unproject(x, y)`:
`lon = (x / R) * 180 / Math.PI`,
`lat = (2 * Math.atan(Math.exp(y / R)) - Math.PI / 2) * 180 / Math.PI`. -/
noncomputable def unproject (x y : ℝ) : ℝ × ℝ :=
  ((x / mercR) * 180 / Real.pi,
   (2 * Real.arctan (Real.exp (y / mercR)) - Real.pi / 2) * 180 / Real.pi)

/-- Claim C9: for every longitude `lon ∈ (−180, 180)` and latitude
`lat ∈ (−85, 85)`, `unproject (project lon lat)` reproduces `(lon, lat)`:
over the reals the inverse is exact (stronger than the claimed
floating-point tolerance). -/
theorem unproject_project (lon lat : ℝ)
    (hlon₁ : -180 < lon) (hlon₂ : lon < 180)
    (hlat₁ : -85 < lat) (hlat₂ : lat < 85) :
    unproject (project lon lat).x (project lon lat).y = (lon, lat) := by
  have hpi : (0:ℝ) < Real.pi := Real.pi_pos
  have hR : mercR ≠ 0 := by norm_num [mercR]
  -- the angle fed to `tan` lies strictly inside (0, π/2)
  set θ : ℝ := Real.pi / 4 + (lat * Real.pi / 180) / 2 with hθ
  have hrad₁ : -(Real.pi / 2) < lat * Real.pi / 180 := by nlinarith
  have hrad₂ : lat * Real.pi / 180 < Real.pi / 2 := by nlinarith
  have hθ₁ : 0 < θ := by rw [hθ]; nlinarith
  have hθ₂ : θ < Real.pi / 2 := by rw [hθ]; nlinarith
  have htan : 0 < Real.tan θ := Real.tan_pos_of_pos_of_lt_pi_div_two hθ₁ hθ₂
  have hexp : Real.exp (Real.log (Real.tan θ)) = Real.tan θ := Real.exp_log htan
  have harc : Real.arctan (Real.tan θ) = θ := by
    refine Real.arctan_tan ?_ hθ₂
    nlinarith
  unfold unproject project
  refine Prod.ext ?_ ?_
  · show mercR * (lon * Real.pi / 180) / mercR * 180 / Real.pi = lon
    field_simp
    ring
  · show (2 * Real.arctan (Real.exp (mercR *
        Real.log (Real.tan θ) / mercR)) - Real.pi / 2) * 180 / Real.pi = lat
    rw [mul_div_assoc, mul_div_cancel_left₀ _ hR, hexp, harc, hθ]
    field_simp
    ring

/-- Witness for C9 at `lon = 45`, `lat = 45`. -/
theorem unproject_project_witness :
    unproject (project 45 45).x (project 45 45).y = (45, 45) :=
  unproject_project 45 45 (by norm_num) (by norm_num) (by norm_num) (by norm_num)

/-! ## Nearest point on polyline (`compute_transform.js`, lines 19–39) -/

/-- The `{x, y, dist2}` record the oracle's loop keeps as `best`. -/
structure Best (K : Type) where
  x : K
  y : K
  dist2 : K
deriving DecidableEq, Repr

variable {K : Type} [LinearOrderedField K]

/-- One iteration of the segment loop: the clamped orthogonal projection of
`pt` onto segment `a`–`b` and its squared distance, exactly as computed in
the loop body of `nearestPointOnPolylineMeters`:
`t = vLen2 === 0 ? 0 : (vx*wx + vy*wy) / vLen2`, clamped to `[0,1]`. -/
def segBest (pt a b : Pt K) : Best K :=
  let vx := b.x - a.x
  let vy := b.y - a.y
  let wx := pt.x - a.x
  let wy := pt.y - a.y
  let vLen2 := vx * vx + vy * vy
  let t0 : K := if vLen2 = 0 then 0 else (vx * wx + vy * wy) / vLen2
  let t := max 0 (min 1 t0)
  let projX := a.x + t * vx
  let projY := a.y + t * vy
  let dx := projX - pt.x
  let dy := projY - pt.y
  ⟨projX, projY, dx * dx + dy * dy⟩

/-- The update of the mutable `best`:
`if (!best || d2 < best.dist2) best = { x: projX, y: projY, dist2: d2 }`. -/
def betterOf (best : Option (Best K)) (cand : Best K) : Option (Best K) :=
  match best with
  | none => some cand
  | some bb => if cand.dist2 < bb.dist2 then some cand else some bb

/-- The loop `for (i = 0; i < poly.length - 1; i++)` of
`nearestPointOnPolylineMeters`, threading the mutable `best`. -/
def nearestAux (pt : Pt K) : Option (Best K) → List (Pt K) → Option (Best K)
  | best, a :: b :: rest => nearestAux pt (betterOf best (segBest pt a b)) (b :: rest)
  | best, _ => best

/-- `nearestPointOnPolylineMeters(pt, poly)`: starts with `best = null` and
returns the final `best` (`none` models JavaScript `null`). -/
def nearestPointOnPolylineMeters (pt : Pt K) (poly : List (Pt K)) :
    Option (Best K) :=
  nearestAux pt none poly

/-- Claim C10: with fewer than 2 polyline points the segment loop body never
runs, so the function returns `null`. -/
theorem nearestPointOnPolylineMeters_short (pt : Pt K) (poly : List (Pt K))
    (h : poly.length < 2) :
    nearestPointOnPolylineMeters pt poly = none := by
  match poly with
  | [] => rfl
  | [a] => rfl
  | a :: b :: rest => simp only [List.length_cons] at h; omega

/-- Witness for C10 at a concrete one-point polyline over `ℚ`. -/
theorem nearestPointOnPolylineMeters_short_witness :
    nearestPointOnPolylineMeters (⟨0, 0⟩ : Pt ℚ) [⟨3, 4⟩] = none :=
  nearestPointOnPolylineMeters_short ⟨0, 0⟩ [⟨3, 4⟩] (by decide)

/-- Sums of two self-products are nonnegative in a linear ordered field. -/
lemma sumsq_nonneg (x y : K) : 0 ≤ x * x + y * y := by
  nlinarith [mul_self_nonneg x, mul_self_nonneg y]

/-- A vanishing sum of two self-products forces both factors to vanish. -/
lemma sumsq_eq_zero (x y : K) (h : x * x + y * y = 0) : x = 0 ∧ y = 0 := by
  constructor <;> nlinarith [mul_self_nonneg x, mul_self_nonneg y]

/-- Every candidate record carries a nonnegative squared distance. -/
lemma segBest_dist2_nonneg (pt a b : Pt K) : 0 ≤ (segBest pt a b).dist2 := by
  simp only [segBest]
  exact sumsq_nonneg _ _

/-- A candidate with squared distance 0 sits exactly at the query point. -/
lemma segBest_dist2_eq_zero (pt a b : Pt K)
    (h : (segBest pt a b).dist2 = 0) :
    (segBest pt a b).x = pt.x ∧ (segBest pt a b).y = pt.y := by
  simp only [segBest] at h ⊢
  obtain ⟨hx, hy⟩ := sumsq_eq_zero _ _ h
  constructor
  · linarith [hx]
  · linarith [hy]

/-- A query point lying on the segment (parameter `t ∈ [0,1]`) yields a
candidate with squared distance 0. -/
lemma segBest_on_segment (a b : Pt K) (t : K) (ht0 : 0 ≤ t) (ht1 : t ≤ 1) :
    (segBest ⟨a.x + t * (b.x - a.x), a.y + t * (b.y - a.y)⟩ a b).dist2 = 0 := by
  simp only [segBest]
  by_cases h : (b.x - a.x) * (b.x - a.x) + (b.y - a.y) * (b.y - a.y) = 0
  · obtain ⟨hx, hy⟩ := sumsq_eq_zero _ _ h
    rw [if_pos h, hx, hy]
    ring
  · have hproj : ((b.x - a.x) * (a.x + t * (b.x - a.x) - a.x)
        + (b.y - a.y) * (a.y + t * (b.y - a.y) - a.y))
        / ((b.x - a.x) * (b.x - a.x) + (b.y - a.y) * (b.y - a.y)) = t := by
      field_simp
      ring
    rw [if_neg h, hproj, min_eq_right ht1, max_eq_right ht0]
    ring

/-- The `best` update always yields a record, no worse than the candidate,
no worse than the incoming record, and equal to one of the two. -/
lemma betterOf_spec (best : Option (Best K)) (cand : Best K) :
    ∃ bN, betterOf best cand = some bN ∧ bN.dist2 ≤ cand.dist2 ∧
      (∀ b0, best = some b0 → bN.dist2 ≤ b0.dist2) ∧
      (bN = cand ∨ best = some bN) := by
  match best with
  | none => exact ⟨cand, rfl, le_refl _, by simp, Or.inl rfl⟩
  | some b0 =>
    by_cases hlt : cand.dist2 < b0.dist2
    · refine ⟨cand, by simp [betterOf, hlt], le_refl _, ?_, Or.inl rfl⟩
      rintro b0' h
      cases h
      exact hlt.le
    · refine ⟨b0, by simp [betterOf, hlt], not_lt.mp hlt, ?_, Or.inr rfl⟩
      rintro b0' h
      cases h
      exact le_refl _

/-- The running `best` never gets worse: the final record's squared distance
is bounded by the incoming one's. -/
lemma nearestAux_le_best (pt : Pt K) (poly : List (Pt K)) :
    ∀ (best : Option (Best K)) (bb b0 : Best K),
      nearestAux pt best poly = some bb → best = some b0 →
      bb.dist2 ≤ b0.dist2 := by
  induction poly with
  | nil =>
    intro best bb b0 hres hbest
    rw [hbest] at hres
    cases hres
    exact le_refl _
  | cons a tail ih =>
    intro best bb b0 hres hbest
    match tail with
    | [] =>
      rw [show nearestAux pt best [a] = best from rfl, hbest] at hres
      cases hres
      exact le_refl _
    | b :: rest =>
      rw [show nearestAux pt best (a :: b :: rest)
          = nearestAux pt (betterOf best (segBest pt a b)) (b :: rest) from rfl] at hres
      obtain ⟨bN, hbN, _, hle0, _⟩ := betterOf_spec best (segBest pt a b)
      rw [hbN] at hres
      exact (ih _ bb bN hres rfl).trans (hle0 b0 hbest)

/-- The final record's squared distance is a lower bound over every
per-segment candidate. -/
lemma nearestAux_le_cand (pt : Pt K) (poly : List (Pt K)) :
    ∀ (best : Option (Best K)) (bb : Best K),
      nearestAux pt best poly = some bb →
      ∀ i, i + 1 < poly.length →
        bb.dist2 ≤ (segBest pt (poly.getD i ⟨0, 0⟩) (poly.getD (i+1) ⟨0, 0⟩)).dist2 := by
  induction poly with
  | nil => intro best bb _ i hi; simp at hi
  | cons a tail ih =>
    intro best bb hres i hi
    match tail with
    | [] => simp only [List.length_cons, List.length_nil] at hi; omega
    | b :: rest =>
      rw [show nearestAux pt best (a :: b :: rest)
          = nearestAux pt (betterOf best (segBest pt a b)) (b :: rest) from rfl] at hres
      obtain ⟨bN, hbN, hcand, _, _⟩ := betterOf_spec best (segBest pt a b)
      rw [hbN] at hres
      match i with
      | 0 =>
        simp only [List.getD_cons_zero, List.getD_cons_succ]
        exact (nearestAux_le_best pt (b :: rest) _ bb bN hres rfl).trans hcand
      | Nat.succ j =>
        simp only [List.getD_cons_succ]
        have hj : j + 1 < (b :: rest).length := by
          simp only [List.length_cons] at hi ⊢
          omega
        exact ih _ bb hres j hj

/-- The final record is either the incoming `best` or one of the
per-segment candidates. -/
lemma nearestAux_attained (pt : Pt K) (poly : List (Pt K)) :
    ∀ (best : Option (Best K)) (bb : Best K),
      nearestAux pt best poly = some bb →
      best = some bb ∨ ∃ i, i + 1 < poly.length ∧
        bb = segBest pt (poly.getD i ⟨0, 0⟩) (poly.getD (i+1) ⟨0, 0⟩) := by
  induction poly with
  | nil =>
    intro best bb hres
    exact Or.inl hres
  | cons a tail ih =>
    intro best bb hres
    match tail with
    | [] =>
      exact Or.inl hres
    | b :: rest =>
      rw [show nearestAux pt best (a :: b :: rest)
          = nearestAux pt (betterOf best (segBest pt a b)) (b :: rest) from rfl] at hres
      obtain ⟨bN, hbN, _, _, hattain⟩ := betterOf_spec best (segBest pt a b)
      rw [hbN] at hres
      rcases ih _ bb hres with hEq | ⟨i, hi, hbb⟩
      · cases hEq
        rcases hattain with hcand | hold
        · exact Or.inr ⟨0, by simp, by simp [hcand]⟩
        · exact Or.inl hold
      · refine Or.inr ⟨i + 1, ?_, ?_⟩
        · simp only [List.length_cons] at hi ⊢
          omega
        · simpa only [List.getD_cons_succ] using hbb

/-- Starting from `best = null`, a polyline with at least one segment always
produces a result. -/
lemma nearestAux_isSome (pt : Pt K) (poly : List (Pt K)) :
    ∀ best : Option (Best K), best.isSome ∨ 2 ≤ poly.length →
      (nearestAux pt best poly).isSome := by
  induction poly with
  | nil =>
    intro best h
    rcases h with h | h
    · simpa [nearestAux] using h
    · simp at h
  | cons a tail ih =>
    intro best h
    match tail with
    | [] =>
      rcases h with h | h
      · simpa [nearestAux] using h
      · simp only [List.length_cons, List.length_nil] at h
        omega
    | b :: rest =>
      rw [show nearestAux pt best (a :: b :: rest)
          = nearestAux pt (betterOf best (segBest pt a b)) (b :: rest) from rfl]
      obtain ⟨bN, hbN, _, _, _⟩ := betterOf_spec best (segBest pt a b)
      rw [hbN]
      exact ih _ (Or.inl rfl)

/-- Claim C3: for a polyline with at least 2 points the oracle returns the
minimum over all clamped per-segment projections together with its squared
distance (the minimum is attained by one of the candidates, zero-length
segments using `t = 0`), and a query point lying exactly on some segment gets
back squared distance 0 and the query point itself. -/
theorem nearestPointOnPolylineMeters_spec (pt : Pt K) (poly : List (Pt K))
    (h : 2 ≤ poly.length) :
    ∃ bb, nearestPointOnPolylineMeters pt poly = some bb
      ∧ (∀ i, i + 1 < poly.length →
          bb.dist2 ≤ (segBest pt (poly.getD i ⟨0, 0⟩) (poly.getD (i+1) ⟨0, 0⟩)).dist2)
      ∧ (∃ i, i + 1 < poly.length ∧
          bb = segBest pt (poly.getD i ⟨0, 0⟩) (poly.getD (i+1) ⟨0, 0⟩))
      ∧ ((∃ i t, i + 1 < poly.length ∧ 0 ≤ t ∧ t ≤ 1 ∧
            pt = ⟨(poly.getD i ⟨0, 0⟩).x + t * ((poly.getD (i+1) ⟨0, 0⟩).x - (poly.getD i ⟨0, 0⟩).x),
                  (poly.getD i ⟨0, 0⟩).y + t * ((poly.getD (i+1) ⟨0, 0⟩).y - (poly.getD i ⟨0, 0⟩).y)⟩) →
          bb.dist2 = 0 ∧ bb.x = pt.x ∧ bb.y = pt.y) := by
  have hsome := nearestAux_isSome pt poly none (Or.inr h)
  obtain ⟨bb, hbb⟩ := Option.isSome_iff_exists.mp hsome
  refine ⟨bb, hbb, ?_, ?_, ?_⟩
  · exact nearestAux_le_cand pt poly none bb hbb
  · rcases nearestAux_attained pt poly none bb hbb with hcontr | h'
    · cases hcontr
    · exact h'
  · rintro ⟨i, t, hi, ht0, ht1, hpt⟩
    have hle := nearestAux_le_cand pt poly none bb hbb i hi
    have hzero : (segBest pt (poly.getD i ⟨0, 0⟩) (poly.getD (i+1) ⟨0, 0⟩)).dist2 = 0 := by
      rw [hpt]
      exact segBest_on_segment _ _ t ht0 ht1
    have hge : 0 ≤ bb.dist2 := by
      rcases nearestAux_attained pt poly none bb hbb with hcontr | ⟨j, hj, hbj⟩
      · cases hcontr
      · rw [hbj]; exact segBest_dist2_nonneg _ _ _
    have hbb0 : bb.dist2 = 0 := le_antisymm (hzero ▸ hle) hge
    refine ⟨hbb0, ?_⟩
    rcases nearestAux_attained pt poly none bb hbb with hcontr | ⟨j, hj, hbj⟩
    · cases hcontr
    · rw [hbj] at hbb0 ⊢
      exact segBest_dist2_eq_zero pt _ _ hbb0

/-- Witness for C3: the polyline `[(0,0), (2,0)]` with query point `(1,0)`
(which lies on the single segment at `t = 1/2`) over `ℚ`. -/
theorem nearestPointOnPolylineMeters_spec_witness :
    ∃ bb, nearestPointOnPolylineMeters (⟨1, 0⟩ : Pt ℚ) [⟨0, 0⟩, ⟨2, 0⟩] = some bb
      ∧ (∀ i, i + 1 < ([⟨0, 0⟩, ⟨2, 0⟩] : List (Pt ℚ)).length →
          bb.dist2 ≤ (segBest ⟨1, 0⟩ (([⟨0, 0⟩, ⟨2, 0⟩] : List (Pt ℚ)).getD i ⟨0, 0⟩)
            (([⟨0, 0⟩, ⟨2, 0⟩] : List (Pt ℚ)).getD (i+1) ⟨0, 0⟩)).dist2)
      ∧ (∃ i, i + 1 < ([⟨0, 0⟩, ⟨2, 0⟩] : List (Pt ℚ)).length ∧
          bb = segBest ⟨1, 0⟩ (([⟨0, 0⟩, ⟨2, 0⟩] : List (Pt ℚ)).getD i ⟨0, 0⟩)
            (([⟨0, 0⟩, ⟨2, 0⟩] : List (Pt ℚ)).getD (i+1) ⟨0, 0⟩))
      ∧ ((∃ i t, i + 1 < ([⟨0, 0⟩, ⟨2, 0⟩] : List (Pt ℚ)).length ∧ (0:ℚ) ≤ t ∧ t ≤ 1 ∧
            (⟨1, 0⟩ : Pt ℚ) = ⟨(([⟨0, 0⟩, ⟨2, 0⟩] : List (Pt ℚ)).getD i ⟨0, 0⟩).x + t * ((([⟨0, 0⟩, ⟨2, 0⟩] : List (Pt ℚ)).getD (i+1) ⟨0, 0⟩).x - (([⟨0, 0⟩, ⟨2, 0⟩] : List (Pt ℚ)).getD i ⟨0, 0⟩).x),
                  (([⟨0, 0⟩, ⟨2, 0⟩] : List (Pt ℚ)).getD i ⟨0, 0⟩).y + t * ((([⟨0, 0⟩, ⟨2, 0⟩] : List (Pt ℚ)).getD (i+1) ⟨0, 0⟩).y - (([⟨0, 0⟩, ⟨2, 0⟩] : List (Pt ℚ)).getD i ⟨0, 0⟩).y)⟩) →
          bb.dist2 = 0 ∧ bb.x = 1 ∧ bb.y = 0) :=
  nearestPointOnPolylineMeters_spec (⟨1, 0⟩ : Pt ℚ) [⟨0, 0⟩, ⟨2, 0⟩] (by decide)

/-! ## Segment lookup (`TrackMap.tsx`, lines 249–264, `findSegmentIndex`) -/

/-- The `while (lo <= hi)` binary-search loop of `findSegmentIndex`.
`lo`/`hi` are modelled as integers because `hi = mid - 1` can reach `-1`.
`mid = Math.floor((lo + hi) / 2)`: integer `/` on `ℤ` is Euclidean division,
which for the positive constant divisor 2 is exactly floor division.  The
JavaScript guard `arr[mid] <= t && t <= arr[mid + 1]` is false when
`mid + 1` is out of bounds (comparison with `undefined`), hence the explicit
bound check.  On exhaustion it returns `Math.max(0, Math.min(n - 2, lo - 1))`. -/
def bsearchSeg (arr : List ℚ) (t : ℚ) (lo hi : ℤ) : ℕ :=
  if hcond : lo ≤ hi then
    let mid := (lo + hi) / 2
    if mid + 1 < (arr.length : ℤ) ∧ arr.getD mid.toNat 0 ≤ t ∧ t ≤ arr.getD (mid + 1).toNat 0 then
      mid.toNat
    else if arr.getD mid.toNat 0 < t then
      bsearchSeg arr t (mid + 1) hi
    else
      bsearchSeg arr t lo (mid - 1)
  else
    (max 0 (min ((arr.length : ℤ) - 2) (lo - 1))).toNat
termination_by (hi + 1 - lo).toNat
decreasing_by
  all_goals simp_wf
  all_goals omega

/-- `findSegmentIndex(t)`: returns 0 for an empty time array, clamps `t` at
or below the first sample to 0 and at or above the last sample to
`Math.max(0, n - 2)`, and otherwise binary-searches for the segment. -/
def findSegmentIndex (arr : List ℚ) (t : ℚ) : ℕ :=
  let n := arr.length
  if n = 0 then 0
  else if t ≤ arr.getD 0 0 then 0
  else if arr.getD (n - 1) 0 ≤ t then n - 2
  else bsearchSeg arr t 0 ((n : ℤ) - 1)

/-- Loop invariant of the binary search: with a pairwise non-decreasing time
array, a target strictly between the first and last samples, and a window
`[lo, hi]` whose outer neighbours already bracket `t`, the loop returns an
index `r ≤ n − 2` with `arr[r] ≤ t ≤ arr[r+1]`. -/
lemma bsearchSeg_spec (arr : List ℚ) (t : ℚ)
    (hmono : ∀ i : ℕ, i + 1 < arr.length → arr.getD i 0 ≤ arr.getD (i+1) 0)
    (hlow : arr.getD 0 0 < t)
    (hhigh : t < arr.getD (arr.length - 1) 0) :
    ∀ lo hi : ℤ, 0 ≤ lo → hi ≤ (arr.length : ℤ) - 1 → lo ≤ hi + 1 →
      (lo = 0 ∨ arr.getD (lo - 1).toNat 0 < t) →
      (hi = (arr.length : ℤ) - 1 ∨ t < arr.getD (hi + 1).toNat 0) →
      bsearchSeg arr t lo hi ≤ arr.length - 2 ∧
      arr.getD (bsearchSeg arr t lo hi) 0 ≤ t ∧
      t ≤ arr.getD (bsearchSeg arr t lo hi + 1) 0 := by
  intro lo hi
  induction lo, hi using bsearchSeg.induct arr t with
  | case1 lo hi hcond mid hguard =>
    intro hlo hhi _ _ _
    rw [bsearchSeg.eq_def, dif_pos hcond, if_pos hguard]
    obtain ⟨hmid1, hmid2, hmid3⟩ := hguard
    have hmidge : lo ≤ mid ∧ mid ≤ hi := by constructor <;> omega
    have hcast : ((mid : ℤ) + 1).toNat = mid.toNat + 1 := by omega
    rw [hcast] at hmid3
    refine ⟨by omega, hmid2, hmid3⟩
  | case2 lo hi hcond mid hguard hlt ih =>
    intro hlo hhi _ hleft hright
    rw [bsearchSeg.eq_def, dif_pos hcond, if_neg hguard, if_pos hlt]
    have hmidge : lo ≤ mid ∧ mid ≤ hi := by constructor <;> omega
    refine ih (by omega) hhi (by omega) ?_ hright
    refine Or.inr ?_
    have : ((mid : ℤ) + 1 - 1).toNat = mid.toNat := by omega
    rw [this]
    exact hlt
  | case3 lo hi hcond mid hguard hnlt ih =>
    intro hlo hhi _ hleft hright
    rw [bsearchSeg.eq_def, dif_pos hcond, if_neg hguard, if_neg hnlt]
    have hmidge : lo ≤ mid ∧ mid ≤ hi := by constructor <;> omega
    have htle : t ≤ arr.getD mid.toNat 0 := not_lt.mp hnlt
    -- the failed guard plus monotonicity force `t < arr[mid]` strictly
    have hstrict : t < arr.getD mid.toNat 0 := by
      rcases lt_or_eq_of_le htle with h | h
      · exact h
      -- t = arr[mid]: the guard's first two conjuncts hold, so its failure
      -- means `mid + 1` is out of bounds or `arr[mid+1] < t`
      exfalso
      by_cases hob : (mid : ℤ) + 1 < (arr.length : ℤ)
      · have hc : ¬ t ≤ arr.getD ((mid : ℤ) + 1).toNat 0 :=
          fun hcc => hguard ⟨hob, le_of_eq h.symm, hcc⟩
        have hcast : ((mid : ℤ) + 1).toNat = mid.toNat + 1 := by omega
        rw [hcast] at hc
        have hmid1 : mid.toNat + 1 < arr.length := by omega
        have hmo := hmono mid.toNat hmid1
        rw [← h] at hmo
        exact hc hmo
      · -- mid + 1 ≥ n: then mid = n − 1 and t = arr[n−1], against hhigh
        have hmn : mid.toNat = arr.length - 1 := by omega
        rw [hmn] at h
        rw [← h] at hhigh
        exact lt_irrefl t hhigh
    refine ih hlo (by omega) (by omega) hleft ?_
    refine Or.inr ?_
    have : ((mid : ℤ) - 1 + 1).toNat = mid.toNat := by omega
    rw [this]
    exact hstrict
  | case4 lo hi hcond =>
    intro hlo hhi hwin hleft hright
    rw [bsearchSeg.eq_def, dif_neg hcond]
    have hnz : arr.length ≠ 0 := by
      intro h0
      have h1 : arr = [] := List.length_eq_zero.mp h0
      subst h1
      simp only [List.getD] at hhigh hlow
      simp at hhigh hlow
      linarith
    have hlo1 : 1 ≤ lo := by
      by_contra hcon
      -- lo = 0 gives hi = −1, so `t < arr[0]`, against hlow
      have h0 : lo = 0 := by omega
      have h1 : hi = -1 := by omega
      rcases hright with hr | hr
      · omega
      · rw [h1, show ((-1 : ℤ) + 1).toNat = 0 by rfl] at hr
        linarith
    have hlt : arr.getD (lo - 1).toNat 0 < t := by
      rcases hleft with h | h
      · omega
      · exact h
    have hhin : hi ≠ (arr.length : ℤ) - 1 := by
      intro h
      have h1 : (lo - 1).toNat = arr.length - 1 := by omega
      rw [h1] at hlt
      linarith
    have hrt : t < arr.getD (hi + 1).toNat 0 := by
      rcases hright with h | h
      · exact absurd h hhin
      · exact h
    have hres : (max 0 (min ((arr.length : ℤ) - 2) (lo - 1))).toNat = (lo - 1).toNat := by
      omega
    rw [hres]
    have hcast : (lo - 1).toNat + 1 = (hi + 1).toNat := by omega
    refine ⟨by omega, hlt.le, ?_⟩
    rw [hcast]
    exact hrt.le

/-- Pairwise non-decreasing consecutive samples give full monotonicity. -/
lemma getD_mono (arr : List ℚ)
    (hmono : ∀ i : ℕ, i + 1 < arr.length → arr.getD i 0 ≤ arr.getD (i+1) 0) :
    ∀ i j : ℕ, i ≤ j → j < arr.length → arr.getD i 0 ≤ arr.getD j 0 := by
  intro i j
  induction j with
  | zero =>
    intro hij _
    have : i = 0 := Nat.le_zero.mp hij
    rw [this]
  | succ k ih =>
    intro hij hj
    by_cases h : i = k + 1
    · rw [h]
    · exact (ih (by omega) (by omega)).trans (hmono k hj)

/-- Claim C4: for a non-decreasing time array of length `n ≥ 2`,
`findSegmentIndex` returns an index in `[0, n−2]`; for `t` within the sampled
range the index satisfies `time[i] ≤ t ≤ time[i+1]`; `t` at or below the
first sample clamps to 0 and `t` above the last sample clamps to `n−2`;
concretely on `time = [0, 10, 20, 30]` it returns 1 for `t = 15`, 0 for
`t = −5`, and 2 for `t = 999`. -/
theorem findSegmentIndex_spec (arr : List ℚ) (t : ℚ)
    (h2 : 2 ≤ arr.length)
    (hmono : ∀ i : ℕ, i + 1 < arr.length → arr.getD i 0 ≤ arr.getD (i+1) 0) :
    findSegmentIndex arr t ≤ arr.length - 2 ∧
    (arr.getD 0 0 ≤ t → t ≤ arr.getD (arr.length - 1) 0 →
      arr.getD (findSegmentIndex arr t) 0 ≤ t ∧
      t ≤ arr.getD (findSegmentIndex arr t + 1) 0) ∧
    (t ≤ arr.getD 0 0 → findSegmentIndex arr t = 0) ∧
    (arr.getD (arr.length - 1) 0 < t → findSegmentIndex arr t = arr.length - 2) ∧
    findSegmentIndex [0, 10, 20, 30] 15 = 1 ∧
    findSegmentIndex [0, 10, 20, 30] (-5) = 0 ∧
    findSegmentIndex [0, 10, 20, 30] 999 = 2 := by
  have hne : arr.length ≠ 0 := by omega
  have hchar : findSegmentIndex arr t =
      if t ≤ arr.getD 0 0 then 0
      else if arr.getD (arr.length - 1) 0 ≤ t then arr.length - 2
      else bsearchSeg arr t 0 ((arr.length : ℤ) - 1) := by
    simp only [findSegmentIndex]
    rw [if_neg hne]
  have hex1 : findSegmentIndex [0, 10, 20, 30] 15 = 1 := by
    simp [findSegmentIndex, bsearchSeg.eq_def, List.getD]
    all_goals norm_num
  have hex2 : findSegmentIndex [0, 10, 20, 30] (-5) = 0 := by
    simp [findSegmentIndex, bsearchSeg.eq_def, List.getD]
  have hex3 : findSegmentIndex [0, 10, 20, 30] 999 = 2 := by
    simp [findSegmentIndex, bsearchSeg.eq_def, List.getD]
    all_goals norm_num
  by_cases ht0 : t ≤ arr.getD 0 0
  · -- clamped to the first segment
    have hres : findSegmentIndex arr t = 0 := by rw [hchar, if_pos ht0]
    rw [hres]
    refine ⟨by omega, ?_, fun _ => rfl, ?_, hex1, hex2, hex3⟩
    · intro hge _
      exact ⟨hge, (le_antisymm ht0 hge) ▸ hmono 0 (by omega)⟩
    · intro hgt
      exfalso
      have := getD_mono arr hmono 0 (arr.length - 1) (by omega) (by omega)
      linarith
  · by_cases htN : arr.getD (arr.length - 1) 0 ≤ t
    · -- clamped to the last segment
      have hres : findSegmentIndex arr t = arr.length - 2 := by
        rw [hchar, if_neg ht0, if_pos htN]
      rw [hres]
      refine ⟨le_refl _, ?_, fun h => absurd h ht0, fun _ => rfl, hex1, hex2, hex3⟩
      intro _ hle
      have hcons := hmono (arr.length - 2) (by omega)
      rw [show arr.length - 2 + 1 = arr.length - 1 by omega] at hcons ⊢
      exact ⟨hcons.trans htN, hle⟩
    · -- interior target: the binary search
      push_neg at ht0 htN
      have hres : findSegmentIndex arr t = bsearchSeg arr t 0 ((arr.length : ℤ) - 1) := by
        rw [hchar, if_neg (not_le.mpr ht0), if_neg (not_le.mpr htN)]
      have hmain := bsearchSeg_spec arr t hmono ht0 htN 0 ((arr.length : ℤ) - 1)
        (le_refl 0) (le_refl _) (by omega) (Or.inl rfl) (Or.inl rfl)
      rw [hres]
      exact ⟨hmain.1, fun _ _ => ⟨hmain.2.1, hmain.2.2⟩,
        fun h => absurd h (not_le.mpr ht0),
        fun h => absurd htN (not_lt.mpr h.le), hex1, hex2, hex3⟩

/-- Witness for C4 at the concrete array `[0, 10, 20, 30]` and `t = 15`. -/
theorem findSegmentIndex_spec_witness :
    findSegmentIndex [0, 10, 20, 30] 15 ≤ ([0, 10, 20, 30] : List ℚ).length - 2 ∧
    (([0, 10, 20, 30] : List ℚ).getD 0 0 ≤ 15 →
      (15:ℚ) ≤ ([0, 10, 20, 30] : List ℚ).getD (([0, 10, 20, 30] : List ℚ).length - 1) 0 →
      ([0, 10, 20, 30] : List ℚ).getD (findSegmentIndex [0, 10, 20, 30] 15) 0 ≤ 15 ∧
      (15:ℚ) ≤ ([0, 10, 20, 30] : List ℚ).getD (findSegmentIndex [0, 10, 20, 30] 15 + 1) 0) ∧
    ((15:ℚ) ≤ ([0, 10, 20, 30] : List ℚ).getD 0 0 → findSegmentIndex [0, 10, 20, 30] 15 = 0) ∧
    (([0, 10, 20, 30] : List ℚ).getD (([0, 10, 20, 30] : List ℚ).length - 1) 0 < 15 →
      findSegmentIndex [0, 10, 20, 30] 15 = ([0, 10, 20, 30] : List ℚ).length - 2) ∧
    findSegmentIndex [0, 10, 20, 30] 15 = 1 ∧
    findSegmentIndex [0, 10, 20, 30] (-5) = 0 ∧
    findSegmentIndex [0, 10, 20, 30] 999 = 2 :=
  findSegmentIndex_spec [0, 10, 20, 30] 15 (by decide)
    (by
      intro i hi
      have h3 : i < 3 := by simp at hi; omega
      interval_cases i <;> decide)

/-! ## Playback engine (`TrackMap.tsx`, `step`, lines 309–339) -/

/-- JavaScript `||` fallback, `speedRef.current || 1`: zero becomes 1. -/
def orOne (s : ℚ) : ℚ := if s = 0 then 1 else s

/-- `targetTime = startTel + elapsedSec * (speedRef.current || 1)` with
`elapsedSec = (performance.now() - startWall) / 1000`. -/
def targetTime (startTel startWall speedMult now : ℚ) : ℚ :=
  startTel + (now - startWall) / 1000 * orOne speedMult

/-- `const t = Math.max(times[0], Math.min(lastTime, targetTime))`. -/
def clampTime (t0 tN v : ℚ) : ℚ := max t0 (min tN v)

/-- The virtual play-head time computed by one animation frame of `step`:
the clamped anchor-based target time. -/
def virtualTime (t0 tN startTel startWall speedMult now : ℚ) : ℚ :=
  clampTime t0 tN (targetTime startTel startWall speedMult now)

/-- Claim C5: while playing, the virtual time equals the anchor telemetry
time plus elapsed wall-clock time scaled by the speed multiplier, clamped to
the sampled range with no looping past the end; the result after any number
of delivered animation frames is a function of the last frame's wall-clock
instant only; and advancing the wall clock by `Δ` seconds at multiplier 2
equals a single seek to `currentTime + 2Δ` (then clamped). -/
theorem virtualTime_spec (t0 tN startTel startWall speedMult : ℚ)
    (h : t0 ≤ tN) :
    (∀ now, t0 ≤ virtualTime t0 tN startTel startWall speedMult now ∧
       virtualTime t0 tN startTel startWall speedMult now ≤ tN) ∧
    (∀ now, tN ≤ targetTime startTel startWall speedMult now →
       virtualTime t0 tN startTel startWall speedMult now = tN) ∧
    (∀ (ws : List ℚ) (w init : ℚ),
       List.foldl (fun _ now => virtualTime t0 tN startTel startWall speedMult now)
           init (ws ++ [w])
         = virtualTime t0 tN startTel startWall speedMult w) ∧
    (∀ cur delta : ℚ,
       virtualTime t0 tN cur startWall 2 (startWall + 1000 * delta)
         = clampTime t0 tN (cur + 2 * delta)) := by
  refine ⟨?_, ?_, ?_, ?_⟩
  · intro now
    constructor
    · exact le_max_left _ _
    · exact max_le h (min_le_left _ _)
  · intro now hge
    unfold virtualTime clampTime
    rw [min_eq_left hge, max_eq_right h]
  · intro ws w init
    rw [List.foldl_append]
    rfl
  · intro cur delta
    unfold virtualTime targetTime orOne
    rw [if_neg (by norm_num : (2:ℚ) ≠ 0)]
    congr 1
    field_simp
    ring

/-- Witness for C5 with the concrete range `[0, 100]`. -/
theorem virtualTime_spec_witness :
    (∀ now, (0:ℚ) ≤ virtualTime 0 100 7 3 2 now ∧
       virtualTime 0 100 7 3 2 now ≤ 100) ∧
    (∀ now, (100:ℚ) ≤ targetTime 7 3 2 now →
       virtualTime 0 100 7 3 2 now = 100) ∧
    (∀ (ws : List ℚ) (w init : ℚ),
       List.foldl (fun _ now => virtualTime 0 100 7 3 2 now) init (ws ++ [w])
         = virtualTime 0 100 7 3 2 w) ∧
    (∀ cur delta : ℚ,
       virtualTime 0 100 cur 3 2 (3 + 1000 * delta)
         = clampTime 0 100 (cur + 2 * delta)) :=
  virtualTime_spec 0 100 7 3 2 (by norm_num)

/-! ## Interpolation (`TrackMap.tsx`, `step`, lines 317–332) -/

/-- `alpha = t1 === t0 ? 0 : (t - t0) / (t1 - t0)` with `t0 = times[i]`,
`t1 = times[i + 1] ?? t0` for `i = findSegmentIndex(t)`. -/
def interpFraction (times : List ℚ) (t : ℚ) : ℚ :=
  let i := findSegmentIndex times t
  let t0 := times.getD i 0
  let t1 := times.getD (i + 1) t0
  if t1 = t0 then 0 else (t - t0) / (t1 - t0)

/-- The interpolated marker position:
`lat = p0[0] + alpha * (p1[0] - p0[0])`, `lon = p0[1] + alpha * (p1[1] - p0[1])`
with `p0 = telemetryLatLngs[i]` and `p1 = telemetryLatLngs[i + 1] ?? p0`. -/
def interpLatLng (times : List ℚ) (pos : List (ℚ × ℚ)) (t : ℚ) : ℚ × ℚ :=
  let i := findSegmentIndex times t
  let a := interpFraction times t
  let p0 := pos.getD i (0, 0)
  let p1 := pos.getD (i + 1) p0
  (p0.1 + a * (p1.1 - p0.1), p0.2 + a * (p1.2 - p0.2))

/-- Claim C6: the interpolation fraction is `(t − time[i]) / (time[i+1] −
time[i])`, 0 on a zero-length interval (no division by zero), the play-head
position is the linear interpolation of the sample positions by that
fraction, and with `time = [0, 10]`, `x = [0, 100]`, querying `t = 5` yields
interpolated `x = 50`. -/
theorem interpFraction_spec (times : List ℚ) (pos : List (ℚ × ℚ)) (t : ℚ) :
    (times.getD (findSegmentIndex times t + 1) (times.getD (findSegmentIndex times t) 0)
        = times.getD (findSegmentIndex times t) 0 →
      interpFraction times t = 0) ∧
    (times.getD (findSegmentIndex times t + 1) (times.getD (findSegmentIndex times t) 0)
        ≠ times.getD (findSegmentIndex times t) 0 →
      interpFraction times t
        = (t - times.getD (findSegmentIndex times t) 0)
          / (times.getD (findSegmentIndex times t + 1)
              (times.getD (findSegmentIndex times t) 0)
            - times.getD (findSegmentIndex times t) 0)) ∧
    interpLatLng times pos t
      = ((1 - interpFraction times t) * (pos.getD (findSegmentIndex times t) (0, 0)).1
          + interpFraction times t
            * (pos.getD (findSegmentIndex times t + 1)
                (pos.getD (findSegmentIndex times t) (0, 0))).1,
         (1 - interpFraction times t) * (pos.getD (findSegmentIndex times t) (0, 0)).2
          + interpFraction times t
            * (pos.getD (findSegmentIndex times t + 1)
                (pos.getD (findSegmentIndex times t) (0, 0))).2) ∧
    interpLatLng [0, 10] [(0, 0), (100, 0)] 5 = (50, 0) := by
  have hfrac : interpFraction times t
      = if times.getD (findSegmentIndex times t + 1)
            (times.getD (findSegmentIndex times t) 0)
          = times.getD (findSegmentIndex times t) 0 then 0
        else (t - times.getD (findSegmentIndex times t) 0)
          / (times.getD (findSegmentIndex times t + 1)
              (times.getD (findSegmentIndex times t) 0)
            - times.getD (findSegmentIndex times t) 0) := rfl
  have key : ∀ (a p0x p1x p0y p1y : ℚ),
      (p0x + a * (p1x - p0x), p0y + a * (p1y - p0y))
        = ((1 - a) * p0x + a * p1x, (1 - a) * p0y + a * p1y) := by
    intro a p0x p1x p0y p1y
    refine Prod.ext ?_ ?_
    · simp
      ring
    · simp
      ring
  refine ⟨?_, ?_, ?_, ?_⟩
  · intro h
    rw [hfrac, if_pos h]
  · intro h
    rw [hfrac, if_neg h]
  · rw [show interpLatLng times pos t
        = ((pos.getD (findSegmentIndex times t) (0, 0)).1
            + interpFraction times t
              * ((pos.getD (findSegmentIndex times t + 1)
                  (pos.getD (findSegmentIndex times t) (0, 0))).1
                - (pos.getD (findSegmentIndex times t) (0, 0)).1),
           (pos.getD (findSegmentIndex times t) (0, 0)).2
            + interpFraction times t
              * ((pos.getD (findSegmentIndex times t + 1)
                  (pos.getD (findSegmentIndex times t) (0, 0))).2
                - (pos.getD (findSegmentIndex times t) (0, 0)).2)) from rfl]
    exact key _ _ _ _ _
  · simp [interpLatLng, interpFraction, findSegmentIndex, bsearchSeg.eq_def, List.getD]
    all_goals norm_num

/-! ## HUD metrics (`TrackMap.tsx`, lines 334–336 and 539–624) -/

/-- JavaScript `Math.round`: half-integers round toward positive infinity. -/
def jsRound (q : ℚ) : ℤ := ⌊q + 1 / 2⌋

/-- `approxIndex = Math.round(i + alpha)` and
`setCurrentIndex(Math.max(0, Math.min(telemetry.time.length - 1, approxIndex)))`:
the HUD sample index maintained by `step`. -/
def currentIndexFor (times : List ℚ) (t : ℚ) : ℕ :=
  (max 0 (min ((times.length : ℤ) - 1)
    (jsRound ((findSegmentIndex times t : ℚ) + interpFraction times t)))).toNat

/-- A telemetry metric as displayed by the HUD cards: the raw array sample at
`currentIndex` (`telemetry.speed?.[currentIndex]` and likewise for throttle,
brake, rpm and gear); `none` models an out-of-range access (displayed `-`). -/
def displayedMetric (vals : List ℚ) (idx : ℕ) : Option ℚ := vals.get? idx

/-- Modelled from the spec for claim C7: the behaviour the spec asserts for
scalar metrics — linear interpolation between samples `i` and `i+1` by the
interpolation fraction.  (The source displays the raw sample instead; this
definition exists to be compared against `displayedMetric`.) -/
def specInterpolatedMetric (times vals : List ℚ) (t : ℚ) : ℚ :=
  let i := findSegmentIndex times t
  let a := interpFraction times t
  vals.getD i 0 + a * (vals.getD (i + 1) (vals.getD i 0) - vals.getD i 0)

/-- Counterexample to claim C7: with `time = [0, 10]`, `speed = [0, 100]` and
play-head time `t = 5`, interpolation would display 50, but the HUD rounds
the index (`Math.round(0 + 0.5) = 1`) and displays the raw sample 100. -/
theorem displayedMetric_not_interpolated :
    displayedMetric [0, 100] (currentIndexFor [0, 10] 5) = some 100 ∧
    specInterpolatedMetric [0, 10] [0, 100] 5 = 50 ∧
    (100 : ℚ) ≠ 50 := by
  have hi : findSegmentIndex [0, 10] 5 = 0 := by
    simp [findSegmentIndex, bsearchSeg.eq_def, List.getD]
  have ha : interpFraction [0, 10] 5 = 1 / 2 := by
    rw [interpFraction, hi]
    norm_num [List.getD]
  refine ⟨?_, ?_, by norm_num⟩
  · rw [displayedMetric, currentIndexFor, hi, ha]
    norm_num [jsRound]
  · rw [specInterpolatedMetric, hi, ha]
    norm_num [List.getD]

/-- Claim C7 as amended: during playback every displayed scalar metric is the
raw sample value at the rounded clamped index
`currentIndex = clamp(Math.round(i + fraction), 0, n−1)` — not an
interpolated value; the index is always in bounds when the metric array has
the same length as the (nonempty) time array. -/
theorem displayedMetric_raw_sample (times vals : List ℚ) (t : ℚ)
    (hlen : vals.length = times.length) (hne : times ≠ []) :
    currentIndexFor times t < vals.length ∧
    displayedMetric vals (currentIndexFor times t)
      = some (vals.getD (currentIndexFor times t) 0) := by
  have hpos : 1 ≤ times.length := by
    cases times with
    | nil => exact absurd rfl hne
    | cons a l => simp
  have hbound : currentIndexFor times t < vals.length := by
    rw [hlen, currentIndexFor]
    omega
  refine ⟨hbound, ?_⟩
  rw [displayedMetric, List.getD_eq_getElem vals 0 hbound]
  rw [List.get?_eq_getElem?]
  exact List.getElem?_eq_getElem hbound

/-- Witness for the amended C7 at `time = [0, 10]`, `speed = [0, 100]`,
`t = 5`. -/
theorem displayedMetric_raw_sample_witness :
    currentIndexFor [0, 10] 5 < ([0, 100] : List ℚ).length ∧
    displayedMetric [0, 100] (currentIndexFor [0, 10] 5)
      = some (([0, 100] : List ℚ).getD (currentIndexFor [0, 10] 5) 0) :=
  displayedMetric_raw_sample [0, 10] [0, 100] 5 (by decide) (by decide)

/-! ## Seek semantics (`TrackMap.tsx`, lines 498–510 and 341–352) -/

/-- The playback UI state of `TrackMap`: `currentIndex`, `playing`, and the
wall-clock / telemetry anchors held in `playStartWallRef` and
`playStartTelRef`. -/
structure PlaybackState where
  currentIndex : ℕ
  playing : Bool
  anchorWall : Option ℚ
  anchorTel : Option ℚ
deriving DecidableEq, Repr

/-- The range slider's `onChange` handler:
`setCurrentIndex(Number(e.target.value)); setPlaying(false)`. -/
def seek (st : PlaybackState) (v : ℕ) : PlaybackState :=
  { st with currentIndex := v, playing := false }

/-- The anchor maintenance of the main animation effect: while playing,
existing anchors are kept (`playStartWallRef.current ?? performance.now()`);
when not playing both anchors are cleared so a later resume rebases. -/
def syncAnchors (st : PlaybackState) (now tel : ℚ) : PlaybackState :=
  if st.playing then
    { st with anchorWall := some (st.anchorWall.getD now),
              anchorTel := some (st.anchorTel.getD tel) }
  else
    { st with anchorWall := none, anchorTel := none }

/-- Counterexample to claim C8: seeking while playing does not leave the
`playing` flag unchanged — the handler sets it to `false`. -/
theorem seek_pauses_counterexample :
    (seek ⟨0, true, some 0, some 0⟩ 5).playing = false ∧ false ≠ true :=
  ⟨rfl, by decide⟩

/-- Claim C8 as amended: a seek sets `currentIndex` to the requested value
and always sets `playing` to `false` (seeking pauses playback); since
`playing` becomes false, the animation effect clears both wall-clock anchors,
so a subsequent resume rebases afresh. -/
theorem seek_spec (st : PlaybackState) (v : ℕ) (now tel : ℚ) :
    (seek st v).currentIndex = v ∧
    (seek st v).playing = false ∧
    (syncAnchors (seek st v) now tel).anchorWall = none ∧
    (syncAnchors (seek st v) now tel).anchorTel = none := by
  refine ⟨rfl, rfl, ?_, ?_⟩ <;> simp [seek, syncAnchors]

/-! ## Similarity solver (`compute_transform.js`, lines 41–69) -/

/-- A similarity transform record `{s, cos, sin, tx, ty}`.  (The JavaScript
object returned by the non-degenerate branch of `solveSimilarity` carries an
extra redundant field `angle = atan2(cImag, cReal)`, with
`cos = Math.cos(angle)`, `sin = Math.sin(angle)`; the claims only concern
the five fields kept here.) -/
@[ext]
structure Sim where
  s : ℝ
  cos : ℝ
  sin : ℝ
  tx : ℝ
  ty : ℝ

/-- The forward similarity application used by the registration loop and the
coordinate mapper: `(s*(cos*x − sin*y) + tx, s*(sin*x + cos*y) + ty)`. -/
def applySim (T : Sim) (p : Pt ℝ) : Pt ℝ :=
  ⟨T.s * (T.cos * p.x - T.sin * p.y) + T.tx,
   T.s * (T.sin * p.x + T.cos * p.y) + T.ty⟩

/-- `Math.hypot(x, y)`. -/
noncomputable def hypot (x y : ℝ) : ℝ := Real.sqrt (x * x + y * y)

/-- `Math.atan2(y, x)`: the argument of the complex number `x + i·y`
(range `(−π, π]`, `atan2(0, 0) = 0`, as in JavaScript). -/
noncomputable def atan2 (y x : ℝ) : ℝ := Complex.arg ⟨x, y⟩

/-- `sx / n` (respectively `dx / n`): mean of the `x` coordinates of the
first `n` points. -/
noncomputable def meanX (l : List (Pt ℝ)) (n : ℕ) : ℝ :=
  (∑ i in Finset.range n, (l.getD i ⟨0, 0⟩).x) / n

/-- `sy / n` (respectively `dy / n`): mean of the `y` coordinates of the
first `n` points. -/
noncomputable def meanY (l : List (Pt ℝ)) (n : ℕ) : ℝ :=
  (∑ i in Finset.range n, (l.getD i ⟨0, 0⟩).y) / n

/-- The `cReal` accumulator: `Σ (yr*xr + yi*xi)` over centred coordinates
`xr = src[i].x − mx`, `xi = src[i].y − my`, `yr = dst[i].x − mdx`,
`yi = dst[i].y − mdy`. -/
noncomputable def cRealSum (src dst : List (Pt ℝ)) (n : ℕ) : ℝ :=
  ∑ i in Finset.range n,
    (((dst.getD i ⟨0, 0⟩).x - meanX dst n) * ((src.getD i ⟨0, 0⟩).x - meanX src n)
      + ((dst.getD i ⟨0, 0⟩).y - meanY dst n) * ((src.getD i ⟨0, 0⟩).y - meanY src n))

/-- The `cImag` accumulator: `Σ (yi*xr − yr*xi)`. -/
noncomputable def cImagSum (src dst : List (Pt ℝ)) (n : ℕ) : ℝ :=
  ∑ i in Finset.range n,
    (((dst.getD i ⟨0, 0⟩).y - meanY dst n) * ((src.getD i ⟨0, 0⟩).x - meanX src n)
      - ((dst.getD i ⟨0, 0⟩).x - meanX dst n) * ((src.getD i ⟨0, 0⟩).y - meanY src n))

/-- The `denom` accumulator: `Σ (xr*xr + xi*xi)`, the centred source
variance. -/
noncomputable def denomSum (src : List (Pt ℝ)) (n : ℕ) : ℝ :=
  ∑ i in Finset.range n,
    (((src.getD i ⟨0, 0⟩).x - meanX src n) * ((src.getD i ⟨0, 0⟩).x - meanX src n)
      + ((src.getD i ⟨0, 0⟩).y - meanY src n) * ((src.getD i ⟨0, 0⟩).y - meanY src n))

/-- `solveSimilarity(src, dst)`: `n = min(src.length, dst.length)`; 0 pairs
give the identity-like transform; zero centred variance gives a
translation-only transform; otherwise the closed-form solution
`s = hypot(cReal, cImag) / denom`, `angle = atan2(cImag, cReal)`,
`cos = cos(angle)`, `sin = sin(angle)`, with the translation placing the
source centroid on the destination centroid. -/
noncomputable def solveSimilarity (src dst : List (Pt ℝ)) : Sim :=
  let n := min src.length dst.length
  if n = 0 then ⟨1, 1, 0, 0, 0⟩
  else
    let mx := meanX src n
    let my := meanY src n
    let mdx := meanX dst n
    let mdy := meanY dst n
    if denomSum src n = 0 then ⟨1, 1, 0, mdx - mx, mdy - my⟩
    else
      let mag := hypot (cRealSum src dst n) (cImagSum src dst n)
      let s := mag / denomSum src n
      let angle := atan2 (cImagSum src dst n) (cRealSum src dst n)
      let c := Real.cos angle
      let si := Real.sin angle
      ⟨s, c, si, mdx - s * (c * mx - si * my), mdy - s * (si * mx + c * my)⟩

/-- The total squared residual of a candidate transform against the given
correspondence: the least-squares objective the solver minimizes. -/
noncomputable def residual (src dst : List (Pt ℝ)) (n : ℕ) (T : Sim) : ℝ :=
  ∑ i in Finset.range n,
    (((applySim T (src.getD i ⟨0, 0⟩)).x - (dst.getD i ⟨0, 0⟩).x) ^ 2
      + ((applySim T (src.getD i ⟨0, 0⟩)).y - (dst.getD i ⟨0, 0⟩).y) ^ 2)

/-- When the destination points are the exact image of the source points
under `T`, the destination centroid is the image of the source centroid. -/
lemma mean_image (src dst : List (Pt ℝ)) (T : Sim) (n : ℕ) (hn : n ≠ 0)
    (himg : ∀ i, i < n → dst.getD i ⟨0, 0⟩ = applySim T (src.getD i ⟨0, 0⟩)) :
    meanX dst n = T.s * (T.cos * meanX src n - T.sin * meanY src n) + T.tx ∧
    meanY dst n = T.s * (T.sin * meanX src n + T.cos * meanY src n) + T.ty := by
  have hnR : (n : ℝ) ≠ 0 := Nat.cast_ne_zero.mpr hn
  have hx : ∑ i in Finset.range n, (dst.getD i ⟨0, 0⟩).x
      = ∑ i in Finset.range n,
        ((T.s * T.cos) * (src.getD i ⟨0, 0⟩).x
          - (T.s * T.sin) * (src.getD i ⟨0, 0⟩).y + T.tx) := by
    refine Finset.sum_congr rfl fun i hi => ?_
    rw [himg i (Finset.mem_range.mp hi)]
    show T.s * (T.cos * (src.getD i ⟨0, 0⟩).x - T.sin * (src.getD i ⟨0, 0⟩).y) + T.tx = _
    ring
  have hy : ∑ i in Finset.range n, (dst.getD i ⟨0, 0⟩).y
      = ∑ i in Finset.range n,
        ((T.s * T.sin) * (src.getD i ⟨0, 0⟩).x
          + (T.s * T.cos) * (src.getD i ⟨0, 0⟩).y + T.ty) := by
    refine Finset.sum_congr rfl fun i hi => ?_
    rw [himg i (Finset.mem_range.mp hi)]
    show T.s * (T.sin * (src.getD i ⟨0, 0⟩).x + T.cos * (src.getD i ⟨0, 0⟩).y) + T.ty = _
    ring
  constructor
  · rw [meanX, hx, Finset.sum_add_distrib, Finset.sum_sub_distrib,
      ← Finset.mul_sum, ← Finset.mul_sum, Finset.sum_const, Finset.card_range,
      nsmul_eq_mul, meanX, meanY]
    field_simp
    ring
  · rw [meanY, hy, Finset.sum_add_distrib, Finset.sum_add_distrib,
      ← Finset.mul_sum, ← Finset.mul_sum, Finset.sum_const, Finset.card_range,
      nsmul_eq_mul, meanX, meanY]
    field_simp
    ring

/-- Under an exact similarity correspondence the cross-covariance
accumulators collapse to multiples of the centred source variance:
`cReal = s·cos·denom` and `cImag = s·sin·denom`. -/
lemma covariance_image (src dst : List (Pt ℝ)) (T : Sim) (n : ℕ) (hn : n ≠ 0)
    (himg : ∀ i, i < n → dst.getD i ⟨0, 0⟩ = applySim T (src.getD i ⟨0, 0⟩)) :
    cRealSum src dst n = T.s * T.cos * denomSum src n ∧
    cImagSum src dst n = T.s * T.sin * denomSum src n := by
  obtain ⟨hmx, hmy⟩ := mean_image src dst T n hn himg
  constructor
  · rw [cRealSum, denomSum, Finset.mul_sum]
    refine Finset.sum_congr rfl fun i hi => ?_
    rw [himg i (Finset.mem_range.mp hi), hmx, hmy]
    show (T.s * (T.cos * (src.getD i ⟨0, 0⟩).x - T.sin * (src.getD i ⟨0, 0⟩).y) + T.tx
        - (T.s * (T.cos * meanX src n - T.sin * meanY src n) + T.tx))
        * ((src.getD i ⟨0, 0⟩).x - meanX src n)
      + (T.s * (T.sin * (src.getD i ⟨0, 0⟩).x + T.cos * (src.getD i ⟨0, 0⟩).y) + T.ty
        - (T.s * (T.sin * meanX src n + T.cos * meanY src n) + T.ty))
        * ((src.getD i ⟨0, 0⟩).y - meanY src n) = _
    ring
  · rw [cImagSum, denomSum, Finset.mul_sum]
    refine Finset.sum_congr rfl fun i hi => ?_
    rw [himg i (Finset.mem_range.mp hi), hmx, hmy]
    show (T.s * (T.sin * (src.getD i ⟨0, 0⟩).x + T.cos * (src.getD i ⟨0, 0⟩).y) + T.ty
        - (T.s * (T.sin * meanX src n + T.cos * meanY src n) + T.ty))
        * ((src.getD i ⟨0, 0⟩).x - meanX src n)
      - (T.s * (T.cos * (src.getD i ⟨0, 0⟩).x - T.sin * (src.getD i ⟨0, 0⟩).y) + T.tx
        - (T.s * (T.cos * meanX src n - T.sin * meanY src n) + T.tx))
        * ((src.getD i ⟨0, 0⟩).y - meanY src n) = _
    ring

/-- The centred source variance is nonnegative. -/
lemma denomSum_nonneg (src : List (Pt ℝ)) (n : ℕ) : 0 ≤ denomSum src n := by
  refine Finset.sum_nonneg fun i _ => ?_
  exact sumsq_nonneg _ _

/-- Claim C1 as amended: for equal-length correspondences whose destination
is the exact image of the source under a similarity `T` (scale `s > 0`, unit
rotation pair, any translation), and whose source set has nonzero centred
variance (`denom ≠ 0` — at least two distinct points), `solveSimilarity`
returns exactly `T`; the returned transform maps the source centroid onto
the destination centroid, attains zero squared residual, and is a global
least-squares optimum (every transform has nonnegative residual). -/
theorem solveSimilarity_recovers (src dst : List (Pt ℝ)) (T : Sim)
    (hlen : src.length = dst.length) (hn : 1 ≤ src.length)
    (hs : 0 < T.s) (hrot : T.cos ^ 2 + T.sin ^ 2 = 1)
    (himg : ∀ i, i < src.length →
      dst.getD i ⟨0, 0⟩ = applySim T (src.getD i ⟨0, 0⟩))
    (hvar : denomSum src src.length ≠ 0) :
    solveSimilarity src dst = T ∧
    applySim (solveSimilarity src dst)
        ⟨meanX src src.length, meanY src src.length⟩
      = ⟨meanX dst src.length, meanY dst src.length⟩ ∧
    residual src dst src.length (solveSimilarity src dst) = 0 ∧
    (∀ T2 : Sim, 0 ≤ residual src dst src.length T2) := by
  have hmin : min src.length dst.length = src.length := by
    rw [← hlen]
    exact min_self _
  have hn0 : src.length ≠ 0 := by omega
  have hD : 0 < denomSum src src.length :=
    lt_of_le_of_ne (denomSum_nonneg src src.length) (Ne.symm hvar)
  obtain ⟨hcR, hcI⟩ := covariance_image src dst T src.length hn0 himg
  obtain ⟨hmx, hmy⟩ := mean_image src dst T src.length hn0 himg
  have hmag : hypot (cRealSum src dst src.length) (cImagSum src dst src.length)
      = T.s * denomSum src src.length := by
    rw [hcR, hcI, hypot]
    have h1 : T.s * T.cos * denomSum src src.length
          * (T.s * T.cos * denomSum src src.length)
        + T.s * T.sin * denomSum src src.length
          * (T.s * T.sin * denomSum src src.length)
        = (T.s * denomSum src src.length) * (T.s * denomSum src src.length)
          * (T.cos ^ 2 + T.sin ^ 2) := by
      ring
    rw [h1, hrot, mul_one, Real.sqrt_mul_self (mul_nonneg hs.le hD.le)]
  have habs : Complex.abs ⟨cRealSum src dst src.length, cImagSum src dst src.length⟩
      = T.s * denomSum src src.length := by
    rw [Complex.abs_apply, Complex.normSq_mk]
    exact hmag
  have hzne : (⟨cRealSum src dst src.length, cImagSum src dst src.length⟩ : ℂ) ≠ 0 := by
    intro h0
    rw [h0] at habs
    simp only [map_zero] at habs
    nlinarith
  have hcos : Real.cos (atan2 (cImagSum src dst src.length) (cRealSum src dst src.length))
      = T.cos := by
    rw [atan2, Complex.cos_arg hzne]
    show cRealSum src dst src.length / _ = T.cos
    rw [habs, hcR]
    field_simp
    ring
  have hsin : Real.sin (atan2 (cImagSum src dst src.length) (cRealSum src dst src.length))
      = T.sin := by
    rw [atan2, Complex.sin_arg]
    show cImagSum src dst src.length / _ = T.sin
    rw [habs, hcI]
    field_simp
    ring
  have hsdiv : hypot (cRealSum src dst src.length) (cImagSum src dst src.length)
      / denomSum src src.length = T.s := by
    rw [hmag, mul_div_assoc, div_self hvar, mul_one]
  have hsolve : solveSimilarity src dst = T := by
    rw [solveSimilarity]
    simp only [hmin]
    rw [if_neg hn0, if_neg hvar]
    refine Sim.ext ?_ ?_ ?_ ?_ ?_
    · exact hsdiv
    · exact hcos
    · exact hsin
    · show meanX dst src.length
        - hypot (cRealSum src dst src.length) (cImagSum src dst src.length)
            / denomSum src src.length
          * (Real.cos (atan2 (cImagSum src dst src.length) (cRealSum src dst src.length))
              * meanX src src.length
            - Real.sin (atan2 (cImagSum src dst src.length) (cRealSum src dst src.length))
              * meanY src src.length) = T.tx
      rw [hsdiv, hcos, hsin, hmx]
      ring
    · show meanY dst src.length
        - hypot (cRealSum src dst src.length) (cImagSum src dst src.length)
            / denomSum src src.length
          * (Real.sin (atan2 (cImagSum src dst src.length) (cRealSum src dst src.length))
              * meanX src src.length
            + Real.cos (atan2 (cImagSum src dst src.length) (cRealSum src dst src.length))
              * meanY src src.length) = T.ty
      rw [hsdiv, hcos, hsin, hmy]
      ring
  refine ⟨hsolve, ?_, ?_, ?_⟩
  · rw [hsolve]
    simp only [applySim]
    rw [hmx, hmy]
  · rw [hsolve, residual]
    refine Finset.sum_eq_zero fun i hi => ?_
    rw [himg i (Finset.mem_range.mp hi)]
    ring
  · intro T2
    refine Finset.sum_nonneg fun i _ => ?_
    positivity

/-- Counterexample to claim C1 as stated: a single pair satisfies every
stated premise (`n ≥ 1`, destination the exact image under
`T = {s: 2, cos: 0, sin: 1, tx: 0, ty: 0}`), yet the solver's `denom` is 0,
so the degenerate translation-only branch returns scale 1, not 2. -/
theorem solveSimilarity_single_point_counterexample :
    applySim ⟨2, 0, 1, 0, 0⟩ ⟨1, 0⟩ = (⟨0, 2⟩ : Pt ℝ) ∧
    (0:ℝ) < 2 ∧ (0:ℝ) ^ 2 + (1:ℝ) ^ 2 = 1 ∧
    (solveSimilarity [⟨1, 0⟩] [⟨0, 2⟩]).s = 1 ∧ (1:ℝ) ≠ 2 := by
  have hd : denomSum [(⟨1, 0⟩ : Pt ℝ)] 1 = 0 := by
    simp [denomSum, meanX, meanY, List.getD]
  refine ⟨?_, by norm_num, by norm_num, ?_, by norm_num⟩
  · simp only [applySim]
    norm_num
  · rw [solveSimilarity]
    norm_num [hd]

/-- Witness for the amended C1: the two-point source `[(0,0), (1,0)]` mapped
by `T = {s: 2, cos: 0, sin: 1, tx: 3, ty: 4}` onto `[(3,4), (3,6)]`. -/
theorem solveSimilarity_recovers_witness :
    solveSimilarity [⟨0, 0⟩, ⟨1, 0⟩] [⟨3, 4⟩, ⟨3, 6⟩] = (⟨2, 0, 1, 3, 4⟩ : Sim) ∧
    applySim (solveSimilarity [⟨0, 0⟩, ⟨1, 0⟩] [⟨3, 4⟩, ⟨3, 6⟩])
        ⟨meanX [⟨0, 0⟩, ⟨1, 0⟩] 2, meanY [⟨0, 0⟩, ⟨1, 0⟩] 2⟩
      = ⟨meanX [⟨3, 4⟩, ⟨3, 6⟩] 2, meanY [⟨3, 4⟩, ⟨3, 6⟩] 2⟩ ∧
    residual [⟨0, 0⟩, ⟨1, 0⟩] [⟨3, 4⟩, ⟨3, 6⟩] 2
        (solveSimilarity [⟨0, 0⟩, ⟨1, 0⟩] [⟨3, 4⟩, ⟨3, 6⟩]) = 0 ∧
    (∀ T2 : Sim, 0 ≤ residual [⟨0, 0⟩, ⟨1, 0⟩] [⟨3, 4⟩, ⟨3, 6⟩] 2 T2) :=
  solveSimilarity_recovers [⟨0, 0⟩, ⟨1, 0⟩] [⟨3, 4⟩, ⟨3, 6⟩] ⟨2, 0, 1, 3, 4⟩
    (by simp) (by simp) (by norm_num) (by norm_num)
    (by
      intro i hi
      simp only [List.length_cons, List.length_nil] at hi
      interval_cases i <;> simp [applySim, List.getD] <;> norm_num)
    (by
      norm_num [denomSum, meanX, meanY, Finset.sum_range_succ,
        Finset.sum_range_zero, List.getD])

/-! ## Registration engine (`compute_transform.js`, `compute`, lines 101–123) -/

/-- The matched destination for one mapped reference point: the nearest
polyline point `{x: nearest.x, y: nearest.y}`.  The source dereferences
`nearest` unconditionally (a polyline with fewer than 2 points would throw
at `nearest.x`); the `none` default is unreachable when `2 ≤ geo.length`. -/
noncomputable def matchPoint (geo : List (Pt ℝ)) (p : Pt ℝ) : Pt ℝ :=
  match nearestPointOnPolylineMeters p geo with
  | some b => ⟨b.x, b.y⟩
  | none => ⟨0, 0⟩

/-- `nearest.dist2` for one mapped reference point (same remark as
`matchPoint` about fewer than 2 polyline points). -/
noncomputable def matchDist2 (geo : List (Pt ℝ)) (p : Pt ℝ) : ℝ :=
  match nearestPointOnPolylineMeters p geo with
  | some b => b.dist2
  | none => 0

/-- `meanError = totalDist2 / cornerPoints.length`: the mean squared
residual of one iteration, accumulated over every reference point mapped by
the current transform and matched to the projected polyline. -/
noncomputable def meanErr (corners geo : List (Pt ℝ)) (T : Sim) : ℝ :=
  (∑ i in Finset.range corners.length,
    matchDist2 geo (applySim T (corners.getD i ⟨0, 0⟩))) / corners.length

/-- One loop iteration's transform update: re-solve the similarity solver on
(original reference points) ↔ (nearest polyline points of the currently
mapped reference points). -/
noncomputable def solveStep (corners geo : List (Pt ℝ)) (T : Sim) : Sim :=
  solveSimilarity corners (corners.map fun cp => matchPoint geo (applySim T cp))

/-- The convergence test `Math.abs(prevError - meanError) < 1e-6`;
`prevError` starts as `Infinity` (modelled `none`), for which the comparison
is false. -/
def converged (prevError : Option ℝ) (meanError : ℝ) : Prop :=
  match prevError with
  | none => False
  | some p => |p - meanError| < 1 / 1000000

open Classical in
/-- The iteration loop `for (let iter = 0; iter < 20; iter++)` of `compute`,
entered with `fuel = 20`, the seed transform and `prevError = Infinity`:
each iteration computes the mean squared residual of the current transform,
replaces the transform by re-solving on the matched correspondence, breaks
when the residual change is below `1e-6`, and otherwise carries the residual
forward as `prevError`.  Returns the final transform and the number of
iterations executed. -/
noncomputable def computeLoop (corners geo : List (Pt ℝ)) :
    ℕ → Sim → Option ℝ → Sim × ℕ
  | 0, T, _ => (T, 0)
  | fuel + 1, T, prevError =>
      let me := meanErr corners geo T
      let sol := solveStep corners geo T
      if converged prevError me then (sol, 1)
      else
        let r := computeLoop corners geo fuel sol (some me)
        (r.1, r.2 + 1)

/-- The declarative trajectory of mean squared residuals: `errsFrom j` is the
residual measured in iteration `j`, i.e. of the transform obtained by `j`
applications of the solve step to the seed. -/
noncomputable def errsFrom (corners geo : List (Pt ℝ)) (T0 : Sim) (j : ℕ) : ℝ :=
  meanErr corners geo ((solveStep corners geo)^[j] T0)

/-- Whether the loop started at `(T0, pe)` breaks in relative iteration `j`. -/
def brkAt (corners geo : List (Pt ℝ)) (T0 : Sim) (pe : Option ℝ) : ℕ → Prop
  | 0 => converged pe (errsFrom corners geo T0 0)
  | j + 1 => converged (some (errsFrom corners geo T0 j))
      (errsFrom corners geo T0 (j + 1))

/-- Shifting the loop start by one solve step shifts the break predicate
(the successor case of `brkAt` ignores the carried previous error). -/
lemma brkAt_shift (corners geo : List (Pt ℝ)) (T : Sim) (pe : Option ℝ) (j : ℕ) :
    brkAt corners geo (solveStep corners geo T) (some (meanErr corners geo T)) j
      ↔ brkAt corners geo T pe (j + 1) := by
  have herr : ∀ k, errsFrom corners geo (solveStep corners geo T) k
      = errsFrom corners geo T (k + 1) := by
    intro k
    rw [errsFrom, errsFrom, Function.iterate_succ_apply]
  match j with
  | 0 =>
    rw [show brkAt corners geo (solveStep corners geo T)
        (some (meanErr corners geo T)) 0
      = converged (some (meanErr corners geo T))
        (errsFrom corners geo (solveStep corners geo T) 0) from rfl]
    rw [herr 0]
    rw [show brkAt corners geo T pe 1
      = converged (some (errsFrom corners geo T 0)) (errsFrom corners geo T 1) from rfl]
    rw [show errsFrom corners geo T 0 = meanErr corners geo T from by
      rw [errsFrom, Function.iterate_zero_apply]]
  | k + 1 =>
    rw [show brkAt corners geo (solveStep corners geo T)
        (some (meanErr corners geo T)) (k + 1)
      = converged (some (errsFrom corners geo (solveStep corners geo T) k))
        (errsFrom corners geo (solveStep corners geo T) (k + 1)) from rfl]
    rw [herr k, herr (k + 1)]
    rw [show brkAt corners geo T pe (k + 1 + 1)
      = converged (some (errsFrom corners geo T (k + 1)))
        (errsFrom corners geo T (k + 1 + 1)) from rfl]

/-- Loop characterization, generalized over fuel, start transform and carried
previous error. -/
lemma computeLoop_aux (corners geo : List (Pt ℝ)) :
    ∀ (fuel : ℕ) (T : Sim) (pe : Option ℝ),
      (computeLoop corners geo fuel T pe).2 ≤ fuel ∧
      (computeLoop corners geo fuel T pe).1
        = (solveStep corners geo)^[(computeLoop corners geo fuel T pe).2] T ∧
      (∀ j, j + 1 < (computeLoop corners geo fuel T pe).2 →
        ¬ brkAt corners geo T pe j) ∧
      ((computeLoop corners geo fuel T pe).2 < fuel →
        0 < (computeLoop corners geo fuel T pe).2 ∧
        brkAt corners geo T pe ((computeLoop corners geo fuel T pe).2 - 1)) := by
  intro fuel
  induction fuel with
  | zero =>
    intro T pe
    have hres : computeLoop corners geo 0 T pe = (T, 0) := rfl
    rw [hres]
    exact ⟨le_refl 0, rfl, fun j hj => absurd hj (by omega),
      fun h => absurd h (by omega)⟩
  | succ fuel ih =>
    intro T pe
    by_cases hc : converged pe (meanErr corners geo T)
    · have hres : computeLoop corners geo (fuel + 1) T pe
          = (solveStep corners geo T, 1) := by
        rw [computeLoop, if_pos hc]
      rw [hres]
      refine ⟨by omega, ?_, ?_, ?_⟩
      · rw [Function.iterate_one]
      · intro j hj
        omega
      · intro _
        refine ⟨by omega, ?_⟩
        rw [show (1 : ℕ) - 1 = 0 from rfl]
        rw [show brkAt corners geo T pe 0
          = converged pe (errsFrom corners geo T 0) from rfl]
        rw [show errsFrom corners geo T 0 = meanErr corners geo T from by
          rw [errsFrom, Function.iterate_zero_apply]]
        exact hc
    · have hres : computeLoop corners geo (fuel + 1) T pe
          = ((computeLoop corners geo fuel (solveStep corners geo T)
              (some (meanErr corners geo T))).1,
             (computeLoop corners geo fuel (solveStep corners geo T)
              (some (meanErr corners geo T))).2 + 1) := by
        rw [computeLoop, if_neg hc]
      obtain ⟨ih1, ih2, ih3, ih4⟩ :=
        ih (solveStep corners geo T) (some (meanErr corners geo T))
      rw [hres]
      refine ⟨by omega, ?_, ?_, ?_⟩
      · rw [ih2, ← Function.iterate_succ_apply]
      · intro j hj
        match j with
        | 0 =>
          rw [show brkAt corners geo T pe 0
            = converged pe (errsFrom corners geo T 0) from rfl]
          rw [show errsFrom corners geo T 0 = meanErr corners geo T from by
            rw [errsFrom, Function.iterate_zero_apply]]
          exact hc
        | j' + 1 =>
          intro hbrk
          exact ih3 j' (by omega) ((brkAt_shift corners geo T pe j').mpr hbrk)
      · intro hlt
        obtain ⟨hpos, hbrk⟩ := ih4 (by omega)
        refine ⟨by omega, ?_⟩
        have heq : (computeLoop corners geo fuel (solveStep corners geo T)
            (some (meanErr corners geo T))).2 + 1 - 1
          = ((computeLoop corners geo fuel (solveStep corners geo T)
            (some (meanErr corners geo T))).2 - 1) + 1 := by omega
        rw [heq]
        have hb2 := (brkAt_shift corners geo T pe _).mp hbrk
        rw [show (computeLoop corners geo fuel (solveStep corners geo T)
            (some (meanErr corners geo T))).2 - 1 + 1
          = (computeLoop corners geo fuel (solveStep corners geo T)
            (some (meanErr corners geo T))).2 from by omega] at hb2
        rw [show (computeLoop corners geo fuel (solveStep corners geo T)
            (some (meanErr corners geo T))).2 - 1 + 1
          = (computeLoop corners geo fuel (solveStep corners geo T)
            (some (meanErr corners geo T))).2 from by omega]
        exact hb2

/-- Claim C2: the registration loop executes at most 20 iterations; the
final transform is the result of applying the solve step (map every
reference point by the current transform, match each mapped point to its
nearest projected-polyline point, re-solve the similarity on the original
points and the matched points) once per executed iteration; no iteration
before the last had consecutive mean squared residuals differing by less
than `1e-6`; and an early exit (fewer than 20 iterations) happens exactly
when the last two consecutive residuals differ by less than `1e-6`. -/
theorem computeLoop_spec (corners geo : List (Pt ℝ)) (T0 : Sim)
    (hc : corners ≠ []) (hg : 2 ≤ geo.length) :
    (computeLoop corners geo 20 T0 none).2 ≤ 20 ∧
    (computeLoop corners geo 20 T0 none).1
      = (solveStep corners geo)^[(computeLoop corners geo 20 T0 none).2] T0 ∧
    (∀ j, 1 ≤ j → j + 1 < (computeLoop corners geo 20 T0 none).2 →
      ¬ (|errsFrom corners geo T0 (j - 1) - errsFrom corners geo T0 j|
          < 1 / 1000000)) ∧
    ((computeLoop corners geo 20 T0 none).2 < 20 →
      2 ≤ (computeLoop corners geo 20 T0 none).2 ∧
      |errsFrom corners geo T0 ((computeLoop corners geo 20 T0 none).2 - 2)
          - errsFrom corners geo T0 ((computeLoop corners geo 20 T0 none).2 - 1)|
        < 1 / 1000000) := by
  obtain ⟨h1, h2, h3, h4⟩ := computeLoop_aux corners geo 20 T0 none
  refine ⟨h1, h2, ?_, ?_⟩
  · intro j hj1 hjk habs
    apply h3 j hjk
    rw [show j = (j - 1) + 1 from by omega]
    rw [show brkAt corners geo T0 none ((j - 1) + 1)
      = converged (some (errsFrom corners geo T0 (j - 1)))
        (errsFrom corners geo T0 ((j - 1) + 1)) from rfl]
    rw [show (j - 1) + 1 = j from by omega]
    exact habs
  · intro hlt
    obtain ⟨hpos, hbrk⟩ := h4 hlt
    have hge2 : 2 ≤ (computeLoop corners geo 20 T0 none).2 := by
      by_contra hcon
      have hk1 : (computeLoop corners geo 20 T0 none).2 = 1 := by omega
      rw [hk1] at hbrk
      exact hbrk
    refine ⟨hge2, ?_⟩
    rw [show (computeLoop corners geo 20 T0 none).2 - 1
      = ((computeLoop corners geo 20 T0 none).2 - 2) + 1 from by omega] at hbrk
    rw [show brkAt corners geo T0 none
        (((computeLoop corners geo 20 T0 none).2 - 2) + 1)
      = converged
        (some (errsFrom corners geo T0 ((computeLoop corners geo 20 T0 none).2 - 2)))
        (errsFrom corners geo T0
          (((computeLoop corners geo 20 T0 none).2 - 2) + 1)) from rfl] at hbrk
    rw [show ((computeLoop corners geo 20 T0 none).2 - 2) + 1
      = (computeLoop corners geo 20 T0 none).2 - 1 from by omega] at hbrk
    exact hbrk

/-- Witness for C2 with one reference point, a two-point polyline and the
identity seed transform. -/
theorem computeLoop_spec_witness :
    (computeLoop [⟨0, 0⟩] [⟨0, 0⟩, ⟨1, 0⟩] 20 ⟨1, 1, 0, 0, 0⟩ none).2 ≤ 20 ∧
    (computeLoop [⟨0, 0⟩] [⟨0, 0⟩, ⟨1, 0⟩] 20 ⟨1, 1, 0, 0, 0⟩ none).1
      = (solveStep [⟨0, 0⟩] [⟨0, 0⟩, ⟨1, 0⟩])^[
          (computeLoop [⟨0, 0⟩] [⟨0, 0⟩, ⟨1, 0⟩] 20 ⟨1, 1, 0, 0, 0⟩ none).2]
          ⟨1, 1, 0, 0, 0⟩ ∧
    (∀ j, 1 ≤ j →
      j + 1 < (computeLoop [⟨0, 0⟩] [⟨0, 0⟩, ⟨1, 0⟩] 20 ⟨1, 1, 0, 0, 0⟩ none).2 →
      ¬ (|errsFrom [⟨0, 0⟩] [⟨0, 0⟩, ⟨1, 0⟩] ⟨1, 1, 0, 0, 0⟩ (j - 1)
          - errsFrom [⟨0, 0⟩] [⟨0, 0⟩, ⟨1, 0⟩] ⟨1, 1, 0, 0, 0⟩ j|
          < 1 / 1000000)) ∧
    ((computeLoop [⟨0, 0⟩] [⟨0, 0⟩, ⟨1, 0⟩] 20 ⟨1, 1, 0, 0, 0⟩ none).2 < 20 →
      2 ≤ (computeLoop [⟨0, 0⟩] [⟨0, 0⟩, ⟨1, 0⟩] 20 ⟨1, 1, 0, 0, 0⟩ none).2 ∧
      |errsFrom [⟨0, 0⟩] [⟨0, 0⟩, ⟨1, 0⟩] ⟨1, 1, 0, 0, 0⟩
          ((computeLoop [⟨0, 0⟩] [⟨0, 0⟩, ⟨1, 0⟩] 20 ⟨1, 1, 0, 0, 0⟩ none).2 - 2)
        - errsFrom [⟨0, 0⟩] [⟨0, 0⟩, ⟨1, 0⟩] ⟨1, 1, 0, 0, 0⟩
          ((computeLoop [⟨0, 0⟩] [⟨0, 0⟩, ⟨1, 0⟩] 20 ⟨1, 1, 0, 0, 0⟩ none).2 - 1)|
        < 1 / 1000000) :=
  computeLoop_spec [⟨0, 0⟩] [⟨0, 0⟩, ⟨1, 0⟩] ⟨1, 1, 0, 0, 0⟩
    (by simp) (by simp)

end F1
